import Mathlib

/-!
Verification of the backup/restore orchestration core of the
`project_power_bi_go` repository (Go), as a shallow embedding in Lean 4.

Embedding conventions:
* Go `map[string]bool` used as a set of taken names is modelled as `Finset String`.
* Go `error` returns are modelled as `Except Unit`; remote-call results are
  supplied by oracle records (one field per call site), since the HTTP client
  (`internal/api/client.go`) is thin I/O glue.
* API JSON responses are modelled as their parsed typed collections; a JSON
  field that is absent is modelled as the empty string where the Go code
  reads it with a defaulting accessor (`getString`).
* The on-disk backup store is modelled by `Store`: the set of per-run backup
  directories keyed `(workspaceID, timestamp)`, the set of runs whose
  `complete_backup.json` was written, and the set of PBIX artifact files
  (tracked by base filename within one run's `pbix/` directory).
* `fmt.Sprintf("%s_%d", name, counter)` is `name ++ "_" ++ Nat.repr counter`.
* Go byte-slicing `fileName[:len(fileName)-5]` (dropping the ".pbix" suffix)
  is `stripPbixExt`; the suffix is 5 one-byte characters, so dropping 5
  characters agrees with dropping 5 bytes for every globbed filename.
-/

/-- `models.Report` (internal/models, src/unnamed/part_001). `Pages` is never
read by the orchestration core and is elided. -/
structure Report where
  id : String
  name : String
  datasetID : String
  embedURL : String
  webURL : String
deriving DecidableEq

/-- `models.Dataset`. -/
structure Dataset where
  id : String
  name : String
  isRefreshable : Bool
  isEffectiveIdentityRequired : Bool
  isEffectiveIdentityRolesRequired : Bool
deriving DecidableEq

/-- `models.Dataflow`. -/
structure Dataflow where
  objectID : String
  name : String
deriving DecidableEq

/-- `models.Dashboard`. -/
structure Dashboard where
  id : String
  displayName : String
  isReadOnly : Bool
  embedURL : String
deriving DecidableEq

/-- `models.App`. -/
structure App where
  id : String
  name : String
  workspaceID : String
deriving DecidableEq

/-- The `map[string]interface{}` refresh-schedule configuration blob is
never inspected by the core, only passed through; it is modelled as an
uninterpreted string. -/
abbrev ScheduleBlob := String

/-- `models.RefreshSchedule`. -/
structure RefreshSchedule where
  datasetID : String
  datasetName : String
  schedule : ScheduleBlob
deriving DecidableEq

/-- `models.WorkspaceSettings`; `BackupWorkspace` only ever fills `ID` and
`Name`, the remaining fields stay at their zero values and are elided. -/
structure WorkspaceSettings where
  id : String
  name : String
deriving DecidableEq

/-- `models.CompleteBackup`.  `Timestamp` is the formatted run timestamp
(`time.Time` is treated as its formatted string).  The collection fields
default to `[]`, matching the Go zero values that survive when a fetch
fails and the corresponding assignment is skipped. -/
structure CompleteBackup where
  timestamp : String
  workspaceID : String
  workspaceName : String
  reports : List Report := []
  datasets : List Dataset := []
  dataflows : List Dataflow := []
  dashboards : List Dashboard := []
  apps : List App := []
  refreshSchedules : List RefreshSchedule := []
  workspaceSettings : WorkspaceSettings
deriving DecidableEq

/-! ### Decimal rendering of the collision counter

`restoreReportsPBIX` builds candidate names with
`fmt.Sprintf("%s_%d", datasetName, counter)`.  The `%d` verb renders the
(positive) counter in decimal, which for `Nat` is exactly `Nat.repr`.
The lemmas below establish that this rendering is injective, which is what
makes the probing loop terminate on a fresh name. -/

/-- Decimal value of a most-significant-first digit string; a left inverse
for `Nat.toDigitsCore 10`. -/
def digitsVal (l : List Char) : Nat :=
  l.foldl (fun a c => 10 * a + (c.toNat - 48)) 0

theorem digitsVal_append_singleton (l : List Char) (c : Char) :
    digitsVal (l ++ [c]) = 10 * digitsVal l + (c.toNat - 48) := by
  simp [digitsVal, List.foldl_append]

theorem digitChar_toNat_of_lt : ∀ d : Nat, d < 10 → (Nat.digitChar d).toNat = 48 + d := by
  decide

theorem toDigitsCore_ten_append :
    ∀ (fuel n : Nat) (ds : List Char),
      Nat.toDigitsCore 10 fuel n ds = Nat.toDigitsCore 10 fuel n [] ++ ds := by
  intro fuel
  induction fuel with
  | zero => intro n ds; simp [Nat.toDigitsCore]
  | succ f ih =>
    intro n ds
    simp only [Nat.toDigitsCore]
    by_cases h : n / 10 = 0
    · simp [h]
    · simp only [h, if_false]
      rw [ih (n / 10) (Nat.digitChar (n % 10) :: ds),
        ih (n / 10) (Nat.digitChar (n % 10) :: [])]
      simp

theorem toDigitsCore_ten_succ (f n : Nat) :
    Nat.toDigitsCore 10 (f + 1) n [] =
      if n / 10 = 0 then [Nat.digitChar (n % 10)]
      else Nat.toDigitsCore 10 f (n / 10) [] ++ [Nat.digitChar (n % 10)] := by
  by_cases h : n / 10 = 0
  · simp [Nat.toDigitsCore, h]
  · simp only [Nat.toDigitsCore, h, if_false]
    exact toDigitsCore_ten_append f (n / 10) [Nat.digitChar (n % 10)]

theorem digitsVal_singleton_digitChar (n : Nat) :
    digitsVal [Nat.digitChar (n % 10)] = n % 10 := by
  have h := digitChar_toNat_of_lt (n % 10) (Nat.mod_lt _ (by omega))
  simp [digitsVal, h]

theorem digitsVal_toDigitsCore :
    ∀ f : Nat, ∀ n : Nat, n ≤ f → digitsVal (Nat.toDigitsCore 10 (f + 1) n []) = n := by
  intro f
  induction f with
  | zero =>
    intro n hn
    interval_cases n
    decide
  | succ f ih =>
    intro n hn
    rw [toDigitsCore_ten_succ]
    by_cases h : n / 10 = 0
    · have hn10 : n < 10 := by
        by_contra hc
        have : 1 ≤ n / 10 := Nat.le_div_iff_mul_le (by omega) |>.mpr (by omega)
        omega
      rw [if_pos h, digitsVal_singleton_digitChar, Nat.mod_eq_of_lt hn10]
    · have h10 : 10 ≤ n := by
        by_contra hc
        exact h (Nat.div_eq_of_lt (by omega))
      have hdiv : n / 10 ≤ f := by
        have : n / 10 < n := Nat.div_lt_self (by omega) (by omega)
        omega
      rw [if_neg h, digitsVal_append_singleton, ih (n / 10) hdiv,
        digitChar_toNat_of_lt (n % 10) (Nat.mod_lt _ (by omega))]
      omega

theorem natRepr_injective : Function.Injective Nat.repr := by
  intro m n h
  have hm := digitsVal_toDigitsCore m m le_rfl
  have hn := digitsVal_toDigitsCore n n le_rfl
  have hlist : Nat.toDigits 10 m = Nat.toDigits 10 n := by
    have := congrArg String.toList h
    simpa [Nat.repr, List.toList_asString] using this
  rw [Nat.toDigits] at hlist
  rw [← hm, ← hn, Nat.toDigits] at *
  rw [hlist] at hm
  omega

/-! ### Name Reconciler (internal/restore/service.go, lines 111-120)

The collision-avoidance logic inlined in `restoreReportsPBIX`:

    finalName := datasetName
    if existingDatasets[datasetName] {
        counter := 1
        for existingDatasets[fmt.Sprintf("%s_%d", datasetName, counter)] {
            counter++
        }
        finalName = fmt.Sprintf("%s_%d", datasetName, counter)
    }

The `for` loop is translated fuel-recursively; `reconcileName` supplies
`taken.card + 1` fuel, which `probeCounter_exists_free` shows is always
enough to reach an unused suffix, so the translation computes exactly the
value the (terminating) Go loop computes. -/

/-- `fmt.Sprintf("%s_%d", desired, n)`. -/
def candName (desired : String) (n : Nat) : String :=
  desired ++ "_" ++ Nat.repr n

/-- The probing loop: starting at `counter`, keep incrementing while the
candidate suffix form is taken; returns the final counter value. -/
def probeCounter (taken : Finset String) (desired : String) : Nat → Nat → Nat
  | 0, counter => counter
  | fuel + 1, counter =>
    if candName desired counter ∈ taken then probeCounter taken desired fuel (counter + 1)
    else counter

/-- The Name Reconciler: the desired name if it is unused, otherwise the
first unused form `"{desired}_{n}"`, `n` probed upward from 1. -/
def reconcileName (taken : Finset String) (desired : String) : String :=
  if desired ∈ taken then
    candName desired (probeCounter taken desired (taken.card + 1) 1)
  else desired

theorem candName_injective (desired : String) : Function.Injective (candName desired) := by
  intro m n h
  apply natRepr_injective
  have hdata := congrArg String.data h
  simp only [candName, String.data_append] at hdata
  exact String.ext (List.append_cancel_left hdata)

theorem probeCounter_spec (taken : Finset String) (desired : String) :
    ∀ (fuel c : Nat), (∃ j, c ≤ j ∧ j < c + fuel ∧ candName desired j ∉ taken) →
      candName desired (probeCounter taken desired fuel c) ∉ taken ∧
      c ≤ probeCounter taken desired fuel c ∧
      ∀ m, c ≤ m → m < probeCounter taken desired fuel c → candName desired m ∈ taken := by
  intro fuel
  induction fuel with
  | zero =>
    intro c ⟨j, hcj, hj, _⟩
    omega
  | succ fuel ih =>
    intro c ⟨j, hcj, hj, hfree⟩
    simp only [probeCounter]
    by_cases hc : candName desired c ∈ taken
    · have hjc : j ≠ c := fun h => hfree (h ▸ hc)
      have ⟨hfree', hle', hall'⟩ := ih (c + 1) ⟨j, by omega, by omega, hfree⟩
      rw [if_pos hc]
      refine ⟨hfree', by omega, fun m hm1 hm2 => ?_⟩
      rcases Nat.eq_or_lt_of_le hm1 with h | h
      · exact h ▸ hc
      · exact hall' m h hm2
    · rw [if_neg hc]
      exact ⟨hc, le_rfl, fun m hm1 hm2 => by omega⟩

theorem probeCounter_exists_free (taken : Finset String) (desired : String) :
    ∃ j, 1 ≤ j ∧ j < 1 + (taken.card + 1) ∧ candName desired j ∉ taken := by
  by_contra h
  push_neg at h
  have hsub : (Finset.Icc 1 (taken.card + 1)).image (candName desired) ⊆ taken := by
    intro x hx
    obtain ⟨j, hj, rfl⟩ := Finset.mem_image.mp hx
    rw [Finset.mem_Icc] at hj
    exact h j hj.1 (by omega)
  have hcard : (Finset.Icc 1 (taken.card + 1)).card = taken.card + 1 := by
    rw [Nat.card_Icc]
    omega
  have himg : ((Finset.Icc 1 (taken.card + 1)).image (candName desired)).card
      = taken.card + 1 := by
    rw [Finset.card_image_of_injective _ (candName_injective desired), hcard]
  have := Finset.card_le_card hsub
  omega

/-- `reconcileName` returns the desired name unchanged when it is unused. -/
theorem reconcileName_of_not_mem {taken : Finset String} {desired : String}
    (h : desired ∉ taken) : reconcileName taken desired = desired := by
  simp [reconcileName, h]

/-- When the desired name is taken, `reconcileName` returns the suffixed form
with the least positive unused counter. -/
theorem reconcileName_of_mem {taken : Finset String} {desired : String}
    (h : desired ∈ taken) :
    ∃ n, 0 < n ∧ reconcileName taken desired = candName desired n ∧
      candName desired n ∉ taken ∧
      ∀ m, 0 < m → m < n → candName desired m ∈ taken := by
  have ⟨hfree, hle, hall⟩ := probeCounter_spec taken desired (taken.card + 1) 1
    (probeCounter_exists_free taken desired)
  refine ⟨probeCounter taken desired (taken.card + 1) 1, by omega, ?_, hfree, ?_⟩
  · simp [reconcileName, h]
  · intro m hm1 hm2
    exact hall m (by omega) hm2

/-- The name the reconciler returns is never a member of the taken set it
was given. -/
theorem reconcileName_not_mem (taken : Finset String) (desired : String) :
    reconcileName taken desired ∉ taken := by
  by_cases h : desired ∈ taken
  · obtain ⟨n, _, heq, hfree, _⟩ := reconcileName_of_mem h
    rw [heq]
    exact hfree
  · rw [reconcileName_of_not_mem h]
    exact h

/-! ### Artifact filenames (backup.backupReportsPBIX / restore.restoreReportsPBIX) -/

/-- `fmt.Sprintf("%s.pbix", report.Name)` — the artifact's base filename;
the report display name is used verbatim, with no sanitization. -/
def pbixFileName (name : String) : String :=
  name ++ ".pbix"

/-- `filepath.Join(filepath.Join(backupDir, "pbix"), fmt.Sprintf("%s.pbix", name))`
with `/` as the path separator. -/
def pbixFilePath (backupDir name : String) : String :=
  backupDir ++ "/pbix/" ++ pbixFileName name

/-- Modelled from the spec: a string is file-system-safe as a single path
component when it contains no path separator. -/
def fileSystemSafe (s : String) : Prop :=
  ('/' : Char) ∉ s.data ∧ ('\\' : Char) ∉ s.data

instance (s : String) : Decidable (fileSystemSafe s) := by
  unfold fileSystemSafe
  infer_instance

/-- `fileName[:len(fileName)-5]` — drop the trailing `".pbix"`. -/
def stripPbixExt (fileName : String) : String :=
  String.mk (fileName.data.take (fileName.data.length - 5))

/-- The PBIX export loop of `backupReportsPBIX` (backup service, lines
334-350): for each report, the artifact `"{name}.pbix"` is written into the
run's `pbix/` directory on success (`os.Create` truncates, so a second
report with the same display name overwrites the first artifact — the file
set gains no new element); a failed export writes nothing.  `exportOk`
is the oracle for the outcome of `apiClient.ExportReport`, keyed by the
report (the export call is treated as atomic at the collaborator boundary).
Returns the resulting file set of the `pbix/` directory and the
`succeeded` / `failed` counters. -/
def exportLoop (exportOk : Report → Bool) :
    List Report → Finset String → Finset String × Nat × Nat
  | [], fs => (fs, 0, 0)
  | r :: rs, fs =>
    if exportOk r then
      let out := exportLoop exportOk rs (insert (pbixFileName r.name) fs)
      (out.1, out.2.1 + 1, out.2.2)
    else
      let out := exportLoop exportOk rs fs
      (out.1, out.2.1, out.2.2 + 1)

/-! ### Restore: PBIX import loop (internal/restore/service.go, lines 101-133) -/

/-- One iteration of the import loop, as recorded in the run trace.
`takenBefore` is the value of `existingDatasets` when the iteration began
(recorded for specification purposes only), `finalName` the reconciled name
passed to `ImportPBIX`, and `ok` the import outcome. -/
structure ImportAttempt where
  file : String
  takenBefore : Finset String
  finalName : String
  ok : Bool
deriving DecidableEq

/-- The import loop of `restoreReportsPBIX`: for each globbed file, derive
the candidate dataset name by stripping the `.pbix` extension, reconcile it
against `existingDatasets`, attempt the import (`importPbixOk` is the oracle
for `apiClient.ImportPBIX`, keyed by file), and only on success register the
final name (`existingDatasets[finalName] = true`).  Returns the trace of
attempts and the final taken-name set. -/
def pbixImportLoop (importPbixOk : String → Bool) :
    List String → Finset String → List ImportAttempt × Finset String
  | [], taken => ([], taken)
  | f :: fs, taken =>
    let datasetName := stripPbixExt f
    let finalName := reconcileName taken datasetName
    if importPbixOk f then
      let out := pbixImportLoop importPbixOk fs (insert finalName taken)
      (⟨f, taken, finalName, true⟩ :: out.1, out.2)
    else
      let out := pbixImportLoop importPbixOk fs taken
      (⟨f, taken, finalName, false⟩ :: out.1, out.2)

/-! ### Restore orchestrator (internal/restore/service.go) -/

/-- Oracle for the remote calls and filesystem observations made during one
`RestoreWorkspace` run.  `GetDatasets` is called twice (once per sub-step),
hence two independent response fields; responses are the parsed
`(name, id)` pairs of the `value` array. -/
structure RestoreOracle where
  load : Except Unit CompleteBackup
  pbixDirExists : Bool
  glob : Except Unit (List String)
  datasetsImport : Except Unit (List (String × String))
  importPbixOk : String → Bool
  datasetsSched : Except Unit (List (String × String))
  updateOk : String → Bool

/-- The seeding of `existingDatasets` (restore service, lines 87-99): on a
`GetDatasets` error the map stays empty (`err == nil` guard); otherwise it
holds every dataset name of the response. -/
def seedNames (resp : Except Unit (List (String × String))) : Finset String :=
  match resp with
  | .error _ => ∅
  | .ok l => (l.map Prod.fst).toFinset

/-- `restoreReportsPBIX` (restore service, lines 62-137).  A missing `pbix`
directory or an empty glob result is a success with no imports; a glob
error is the only error return.  Returns the Go error value and the trace
of import attempts. -/
def restoreReportsPBIX (o : RestoreOracle) : Except Unit Unit × List ImportAttempt :=
  if o.pbixDirExists = false then (.ok (), [])
  else
    match o.glob with
    | .error e => (.error e, [])
    | .ok files =>
      if files = [] then (.ok (), [])
      else
        let existingDatasets := seedNames o.datasetsImport
        ((.ok ()), (pbixImportLoop o.importPbixOk files existingDatasets).1)

/-- The name→id index over the target workspace's current datasets (restore
service, lines 156-167): a Go map built by iterating the response and
assigning `datasetNameToID[name] = id` whenever both `name` and `id` are
non-empty; a later entry overwrites an earlier one with the same name. -/
def buildIndex (resp : List (String × String)) : String → Option String :=
  resp.foldl
    (fun m p =>
      if p.1 ≠ "" ∧ p.2 ≠ "" then (fun n => if n = p.1 then some p.2 else m n) else m)
    (fun _ => none)

/-- The per-schedule loop of `restoreRefreshSchedules` (lines 172-193):
a schedule whose captured dataset name is not in the index is counted as
failed and skipped; otherwise `UpdateRefreshSchedule` is called with the
new dataset id and the stored blob (`updateOk` oracles its outcome), and
the `restored` / `failed` counters advance accordingly.  Returns the trace
of update calls made, `restored`, and `failed`. -/
def schedLoop (updateOk : String → Bool) (index : String → Option String) :
    List RefreshSchedule → List (String × ScheduleBlob) × Nat × Nat
  | [] => ([], 0, 0)
  | s :: rest =>
    match index s.datasetName with
    | none =>
      let out := schedLoop updateOk index rest
      (out.1, out.2.1, out.2.2 + 1)
    | some newDatasetID =>
      if updateOk newDatasetID then
        let out := schedLoop updateOk index rest
        ((newDatasetID, s.schedule) :: out.1, out.2.1 + 1, out.2.2)
      else
        let out := schedLoop updateOk index rest
        ((newDatasetID, s.schedule) :: out.1, out.2.1, out.2.2 + 1)

/-- `restoreRefreshSchedules` (restore service, lines 140-197): an empty
schedule list returns immediately; a `GetDatasets` failure is the only
error return; otherwise the per-schedule loop runs to completion.  Returns
the Go error value, the update-call trace, and the counters. -/
def restoreRefreshSchedules (o : RestoreOracle) (schedules : List RefreshSchedule) :
    Except Unit Unit × List (String × ScheduleBlob) × Nat × Nat :=
  if schedules = [] then (.ok (), [], 0, 0)
  else
    match o.datasetsSched with
    | .error e => (.error e, [], 0, 0)
    | .ok resp =>
      let out := schedLoop o.updateOk (buildIndex resp) schedules
      (.ok (), out)

/-- The observable outcome of one `RestoreWorkspace` run: the returned
error value, the import calls made, and the schedule-update calls made. -/
structure RestoreRun where
  result : Except Unit Unit
  imports : List ImportAttempt
  updates : List (String × ScheduleBlob)

/-- `RestoreWorkspace` (restore service, lines 30-59): load the backup
(fatal on failure), restore reports via PBIX (fatal on failure), then
restore refresh schedules — whose failure is logged and deliberately does
not fail the run. -/
def restoreWorkspace (o : RestoreOracle) : RestoreRun :=
  match o.load with
  | .error e => ⟨.error e, [], []⟩
  | .ok backup =>
    match restoreReportsPBIX o with
    | (.error e, attempts) => ⟨.error e, attempts, []⟩
    | (.ok _, attempts) =>
      let sched := restoreRefreshSchedules o backup.refreshSchedules
      ⟨.ok (), attempts, sched.2.1⟩

/-! ### Backup store (internal/storage/storage.go)

The store is observed only through directory listings and
`complete_backup.json`; it is modelled as the set of per-run directories
`(workspaceID, timestamp)` under the backup path, the set of runs whose
`complete_backup.json` was successfully written, and the set of PBIX
artifact files `(workspaceID, timestamp, baseFileName)`. -/

structure Store where
  dirs : Finset (String × String)
  completeFiles : Finset (String × String)
  pbixFiles : Finset (String × String × String)
deriving DecidableEq

/-- `ListBackups` (storage.go, lines 108-130): every directory entry under
`<backupPath>/<workspaceID>` — a backup location is identified here by its
timestamp component. -/
def listBackups (st : Store) (workspaceID : String) : Finset String :=
  (st.dirs.filter (fun p => p.1 = workspaceID)).image Prod.snd

/-- `GetLatestBackup` (storage.go, lines 132-146): the last entry of the
name-sorted directory listing, or an error when there is none. -/
def getLatestBackup (st : Store) (workspaceID : String) : Except Unit String :=
  match ((listBackups st workspaceID).sort (· ≤ ·)).getLast? with
  | none => .error ()
  | some latest => .ok latest

/-- `LoadBackup` (storage.go, lines 88-106) at the store level: it succeeds
exactly when the run's `complete_backup.json` exists (and was fully
written). -/
def loadBackupAt (st : Store) (workspaceID ts : String) : Except Unit Unit :=
  if (workspaceID, ts) ∈ st.completeFiles then .ok () else .error ()

/-! ### Backup orchestrator (package backup, src/unnamed/part_000) -/

/-- Oracle for the remote calls and filesystem operations of one
`BackupWorkspace` run.  `settings` carries the `name` field of the
`GetWorkspaceSettings` response (read via a defaulting type assertion);
`schedule` is the per-dataset-id `GetRefreshSchedule` outcome; `mkdirOk` /
`pbixMkdirOk` / `saveOk` are the outcomes of the two `os.MkdirAll` calls
and of `storageService.SaveBackup`. -/
structure BackupOracle where
  mkdirOk : Bool
  settings : Except Unit String
  reports : Except Unit (List Report)
  datasets : Except Unit (List Dataset)
  dataflows : Except Unit (List Dataflow)
  dashboards : Except Unit (List Dashboard)
  apps : Except Unit (List App)
  schedule : String → Except Unit ScheduleBlob
  pbixMkdirOk : Bool
  exportOk : Report → Bool
  saveOk : Bool

/-- `backupApps` (backup service, lines 264-296): a `GetApps` error is
swallowed — the function returns an empty list with a nil error — and a
successful response is filtered to this workspace's apps.  The returned
error value is always nil, which is why the caller's error branch is
dead code. -/
def backupApps (workspaceID : String) (resp : Except Unit (List App)) :
    Except Unit (List App) :=
  match resp with
  | .error _ => .ok []
  | .ok apps => .ok (apps.filter (fun a => a.workspaceID = workspaceID))

/-- `backupRefreshSchedules` (backup service, lines 298-316): one
`GetRefreshSchedule` call per dataset; a per-dataset error only skips that
dataset.  The Go function's error result is always nil, so it is modelled
as returning the list directly. -/
def backupRefreshSchedules (schedule : String → Except Unit ScheduleBlob) :
    List Dataset → List RefreshSchedule
  | [] => []
  | d :: ds =>
    match schedule d.id with
    | .error _ => backupRefreshSchedules schedule ds
    | .ok s => ⟨d.id, d.name, s⟩ :: backupRefreshSchedules schedule ds

/-- `backupReportsPBIX` (backup service, lines 318-353) as it acts on the
store: with no reports it does nothing (zero counters, no `pbix/` mkdir);
a failed `pbix/` mkdir is an error return that the caller only logs;
otherwise the export loop fills the run's fresh `pbix/` directory. -/
def backupReportsPBIX (o : BackupOracle) (workspaceID ts : String)
    (reports : List Report) (st : Store) : Store :=
  if reports = [] then st
  else if o.pbixMkdirOk = false then st
  else
    { st with
      pbixFiles := st.pbixFiles ∪
        ((exportLoop o.exportOk reports ∅).1.image (fun fn => (workspaceID, ts, fn))) }

/-- `BackupWorkspace` (backup service, lines 31-142).  The run directory is
created first (fatal on failure), then workspace settings are fetched
(fatal on failure); each collection fetch is non-fatal and on failure the
corresponding snapshot field keeps its zero value; `backupRefreshSchedules`
runs over the local `datasets` variable, which is nil when that fetch
failed; the PBIX export error is only logged; `SaveBackup` failure is
fatal.  Returns the Go `(backup, error)` pair and the resulting store. -/
def backupWorkspace (o : BackupOracle) (workspaceID ts : String) (st : Store) :
    Except Unit CompleteBackup × Store :=
  if o.mkdirOk = false then (.error (), st)
  else
    let st := { st with dirs := insert (workspaceID, ts) st.dirs }
    match o.settings with
    | .error e => (.error e, st)
    | .ok workspaceName =>
      let backup : CompleteBackup :=
        { timestamp := ts, workspaceID := workspaceID, workspaceName := workspaceName,
          workspaceSettings := { id := workspaceID, name := workspaceName } }
      let reports : List Report := match o.reports with | .error _ => [] | .ok v => v
      let backup := match o.reports with
        | .error _ => backup
        | .ok v => { backup with reports := v }
      let datasets : List Dataset := match o.datasets with | .error _ => [] | .ok v => v
      let backup := match o.datasets with
        | .error _ => backup
        | .ok v => { backup with datasets := v }
      let backup := match o.dataflows with
        | .error _ => backup
        | .ok v => { backup with dataflows := v }
      let backup := match o.dashboards with
        | .error _ => backup
        | .ok v => { backup with dashboards := v }
      let backup := match backupApps workspaceID o.apps with
        | .error _ => backup
        | .ok v => { backup with apps := v }
      let backup := { backup with
        refreshSchedules := backupRefreshSchedules o.schedule datasets }
      let st := backupReportsPBIX o workspaceID ts reports st
      if o.saveOk = false then (.error (), st)
      else
        (.ok backup,
         { st with
           dirs := insert (workspaceID, ts) st.dirs,
           completeFiles := insert (workspaceID, ts) st.completeFiles })

/-! ### Helper lemmas: export loop -/

theorem exportLoop_nil (exportOk : Report → Bool) (fs : Finset String) :
    exportLoop exportOk [] fs = (fs, 0, 0) := rfl

theorem exportLoop_cons_pos {exportOk : Report → Bool} {r : Report} (rs : List Report)
    (fs : Finset String) (h : exportOk r = true) :
    exportLoop exportOk (r :: rs) fs =
      ((exportLoop exportOk rs (insert (pbixFileName r.name) fs)).1,
       (exportLoop exportOk rs (insert (pbixFileName r.name) fs)).2.1 + 1,
       (exportLoop exportOk rs (insert (pbixFileName r.name) fs)).2.2) := by
  simp [exportLoop, h]

theorem exportLoop_cons_neg {exportOk : Report → Bool} {r : Report} (rs : List Report)
    (fs : Finset String) (h : exportOk r = false) :
    exportLoop exportOk (r :: rs) fs =
      ((exportLoop exportOk rs fs).1,
       (exportLoop exportOk rs fs).2.1,
       (exportLoop exportOk rs fs).2.2 + 1) := by
  simp [exportLoop, h]

theorem exportLoop_mem (exportOk : Report → Bool) :
    ∀ (rs : List Report) (fs : Finset String) (x : String),
      x ∈ (exportLoop exportOk rs fs).1 ↔
        x ∈ fs ∨ ∃ r, r ∈ rs ∧ exportOk r = true ∧ x = pbixFileName r.name := by
  intro rs
  induction rs with
  | nil => intro fs x; simp [exportLoop_nil]
  | cons r rs ih =>
    intro fs x
    cases h : exportOk r with
    | true =>
      rw [exportLoop_cons_pos rs fs h]
      simp only [ih, Finset.mem_insert]
      constructor
      · rintro ((h1 | h1) | ⟨r', hr', hok, rfl⟩)
        · exact Or.inr ⟨r, List.mem_cons_self r rs, h, h1⟩
        · exact Or.inl h1
        · exact Or.inr ⟨r', List.mem_cons_of_mem _ hr', hok, rfl⟩
      · rintro (h1 | ⟨r', hr', hok, rfl⟩)
        · exact Or.inl (Or.inr h1)
        · rcases List.mem_cons.mp hr' with rfl | hr'
          · exact Or.inl (Or.inl rfl)
          · exact Or.inr ⟨r', hr', hok, rfl⟩
    | false =>
      rw [exportLoop_cons_neg rs fs h]
      simp only [ih]
      constructor
      · rintro (h1 | ⟨r', hr', hok, rfl⟩)
        · exact Or.inl h1
        · exact Or.inr ⟨r', List.mem_cons_of_mem _ hr', hok, rfl⟩
      · rintro (h1 | ⟨r', hr', hok, rfl⟩)
        · exact Or.inl h1
        · rcases List.mem_cons.mp hr' with rfl | hr'
          · rw [hok] at h; cases h
          · exact Or.inr ⟨r', hr', hok, rfl⟩

theorem exportLoop_fst_eq (exportOk : Report → Bool) (rs : List Report) (fs : Finset String) :
    (exportLoop exportOk rs fs).1 =
      fs ∪ ((rs.filter exportOk).map (fun r => pbixFileName r.name)).toFinset := by
  ext x
  rw [exportLoop_mem]
  simp only [Finset.mem_union, List.mem_toFinset, List.mem_map, List.mem_filter]
  constructor
  · rintro (h | ⟨r, hr, hok, rfl⟩)
    · exact Or.inl h
    · exact Or.inr ⟨r, ⟨hr, hok⟩, rfl⟩
  · rintro (h | ⟨r, ⟨hr, hok⟩, rfl⟩)
    · exact Or.inl h
    · exact Or.inr ⟨r, hr, hok, rfl⟩

theorem exportLoop_succeeded (exportOk : Report → Bool) :
    ∀ (rs : List Report) (fs : Finset String),
      (exportLoop exportOk rs fs).2.1 = (rs.filter exportOk).length := by
  intro rs
  induction rs with
  | nil => intro fs; simp [exportLoop_nil]
  | cons r rs ih =>
    intro fs
    cases h : exportOk r with
    | true => rw [exportLoop_cons_pos rs fs h]; simp [List.filter_cons, h, ih]
    | false => rw [exportLoop_cons_neg rs fs h]; simp [List.filter_cons, h, ih]

/-! ### Helper lemmas: import loop -/

theorem pbixImportLoop_nil (importPbixOk : String → Bool) (taken : Finset String) :
    pbixImportLoop importPbixOk [] taken = ([], taken) := rfl

theorem pbixImportLoop_cons_pos {importPbixOk : String → Bool} {f : String}
    (fs : List String) (taken : Finset String) (h : importPbixOk f = true) :
    pbixImportLoop importPbixOk (f :: fs) taken =
      (⟨f, taken, reconcileName taken (stripPbixExt f), true⟩ ::
        (pbixImportLoop importPbixOk fs
          (insert (reconcileName taken (stripPbixExt f)) taken)).1,
       (pbixImportLoop importPbixOk fs
         (insert (reconcileName taken (stripPbixExt f)) taken)).2) := by
  simp [pbixImportLoop, h]

theorem pbixImportLoop_cons_neg {importPbixOk : String → Bool} {f : String}
    (fs : List String) (taken : Finset String) (h : importPbixOk f = false) :
    pbixImportLoop importPbixOk (f :: fs) taken =
      (⟨f, taken, reconcileName taken (stripPbixExt f), false⟩ ::
        (pbixImportLoop importPbixOk fs taken).1,
       (pbixImportLoop importPbixOk fs taken).2) := by
  simp [pbixImportLoop, h]

theorem pbixImportLoop_length (importPbixOk : String → Bool) :
    ∀ (files : List String) (taken : Finset String),
      (pbixImportLoop importPbixOk files taken).1.length = files.length := by
  intro files
  induction files with
  | nil => intro taken; simp [pbixImportLoop_nil]
  | cons f fs ih =>
    intro taken
    cases h : importPbixOk f with
    | true => rw [pbixImportLoop_cons_pos fs taken h]; simp [ih]
    | false => rw [pbixImportLoop_cons_neg fs taken h]; simp [ih]

theorem pbixImportLoop_attempt_spec (importPbixOk : String → Bool) :
    ∀ (files : List String) (taken : Finset String),
      ∀ a ∈ (pbixImportLoop importPbixOk files taken).1,
        a.finalName = reconcileName a.takenBefore (stripPbixExt a.file) ∧
        a.ok = importPbixOk a.file := by
  intro files
  induction files with
  | nil => intro taken a ha; rw [pbixImportLoop_nil] at ha; cases ha
  | cons f fs ih =>
    intro taken a ha
    cases h : importPbixOk f with
    | true =>
      rw [pbixImportLoop_cons_pos fs taken h] at ha
      rcases List.mem_cons.mp ha with rfl | ha
      · exact ⟨rfl, h.symm⟩
      · exact ih _ a ha
    | false =>
      rw [pbixImportLoop_cons_neg fs taken h] at ha
      rcases List.mem_cons.mp ha with rfl | ha
      · exact ⟨rfl, h.symm⟩
      · exact ih _ a ha

theorem pbixImportLoop_takenBefore (importPbixOk : String → Bool) :
    ∀ (files : List String) (taken : Finset String) (pre : List ImportAttempt)
      (a : ImportAttempt) (post : List ImportAttempt),
      (pbixImportLoop importPbixOk files taken).1 = pre ++ a :: post →
      a.takenBefore =
        pre.foldl (fun s b => if b.ok then insert b.finalName s else s) taken := by
  intro files
  induction files with
  | nil =>
    intro taken pre a post h
    rw [pbixImportLoop_nil] at h
    exact absurd h.symm (List.append_ne_nil_of_right_ne_nil pre (List.cons_ne_nil a post))
  | cons f fs ih =>
    intro taken pre a post h
    cases hok : importPbixOk f with
    | true =>
      rw [pbixImportLoop_cons_pos fs taken hok] at h
      cases pre with
      | nil =>
        simp only [List.nil_append] at h
        have := (List.cons.injEq _ _ _ _).mp h
        rw [← this.1]
        simp
      | cons b pre =>
        simp only [List.cons_append] at h
        have := (List.cons.injEq _ _ _ _).mp h
        rw [ih _ pre a post this.2, ← this.1]
        simp
    | false =>
      rw [pbixImportLoop_cons_neg fs taken hok] at h
      cases pre with
      | nil =>
        simp only [List.nil_append] at h
        have := (List.cons.injEq _ _ _ _).mp h
        rw [← this.1]
        simp
      | cons b pre =>
        simp only [List.cons_append] at h
        have := (List.cons.injEq _ _ _ _).mp h
        rw [ih _ pre a post this.2, ← this.1]
        simp

theorem pbixImportLoop_success_spec (importPbixOk : String → Bool) :
    ∀ (files : List String) (taken : Finset String),
      ((((pbixImportLoop importPbixOk files taken).1.filter
          (fun a => a.ok)).map (fun a => a.finalName)).Nodup) ∧
      (∀ a ∈ (pbixImportLoop importPbixOk files taken).1,
        a.ok = true → a.finalName ∉ taken) := by
  intro files
  induction files with
  | nil =>
    intro taken
    refine ⟨by simp [pbixImportLoop_nil], ?_⟩
    intro a ha
    rw [pbixImportLoop_nil] at ha
    cases ha
  | cons f fs ih =>
    intro taken
    cases h : importPbixOk f with
    | true =>
      rw [pbixImportLoop_cons_pos fs taken h]
      set r := reconcileName taken (stripPbixExt f) with hr
      obtain ⟨ihnodup, ihfresh⟩ := ih (insert r taken)
      constructor
      · have hstep : ((⟨f, taken, r, true⟩ : ImportAttempt) ::
            (pbixImportLoop importPbixOk fs (insert r taken)).1).filter (fun a => a.ok) =
            (⟨f, taken, r, true⟩ : ImportAttempt) ::
            ((pbixImportLoop importPbixOk fs (insert r taken)).1.filter (fun a => a.ok)) := by
          simp [List.filter_cons]
        rw [hstep, List.map_cons, List.nodup_cons]
        refine ⟨?_, ihnodup⟩
        intro hc
        simp only [List.mem_map, List.mem_filter] at hc
        obtain ⟨a, ⟨ha, haok⟩, hfin⟩ := hc
        have := ihfresh a ha (by simpa using haok)
        rw [hfin] at this
        exact this (Finset.mem_insert_self r taken)
      · intro a ha haok
        rcases List.mem_cons.mp ha with rfl | ha
        · exact hr ▸ reconcileName_not_mem taken (stripPbixExt f)
        · intro hmem
          exact ihfresh a ha haok (Finset.mem_insert_of_mem hmem)
    | false =>
      rw [pbixImportLoop_cons_neg fs taken h]
      obtain ⟨ihnodup, ihfresh⟩ := ih taken
      constructor
      · simpa [List.filter_cons] using ihnodup
      · intro a ha haok
        rcases List.mem_cons.mp ha with rfl | ha
        · cases haok
        · exact ihfresh a ha haok

theorem pbixImportLoop_all_ok :
    ∀ (files : List String) (taken : Finset String),
      ∀ a ∈ (pbixImportLoop (fun _ => true) files taken).1, a.ok = true := by
  intro files taken a ha
  exact (pbixImportLoop_attempt_spec (fun _ => true) files taken a ha).2

theorem pbixImportLoop_all_ok_nodup (files : List String) (taken : Finset String) :
    (((pbixImportLoop (fun _ => true) files taken).1.map
        (fun a => a.finalName)).Nodup) := by
  have h := (pbixImportLoop_success_spec (fun _ => true) files taken).1
  have hfilter : ((pbixImportLoop (fun _ => true) files taken).1.filter (fun a => a.ok)) =
      (pbixImportLoop (fun _ => true) files taken).1 := by
    apply List.filter_eq_self.mpr
    intro a ha
    exact pbixImportLoop_all_ok files taken a ha
  rwa [hfilter] at h

theorem pbixImportLoop_unchanged :
    ∀ (files : List String) (taken : Finset String),
      (files.map stripPbixExt).Nodup →
      (∀ f ∈ files, stripPbixExt f ∉ taken) →
      ((pbixImportLoop (fun _ => true) files taken).1.map (fun a => a.finalName)) =
        files.map stripPbixExt := by
  intro files
  induction files with
  | nil => intro taken _ _; simp [pbixImportLoop_nil]
  | cons f fs ih =>
    intro taken hnodup hfresh
    rw [List.map_cons] at hnodup
    obtain ⟨hhead, htail⟩ := List.nodup_cons.mp hnodup
    rw [pbixImportLoop_cons_pos fs taken rfl]
    have hf : stripPbixExt f ∉ taken := hfresh f (List.mem_cons_self f fs)
    have hrec : reconcileName taken (stripPbixExt f) = stripPbixExt f :=
      reconcileName_of_not_mem hf
    simp only [List.map_cons, hrec]
    congr 1
    apply ih
    · exact htail
    · intro g hg
      intro hmem
      rcases Finset.mem_insert.mp hmem with heq | hmem'
      · exact hhead (heq ▸ List.mem_map_of_mem stripPbixExt hg)
      · exact hfresh g (List.mem_cons_of_mem f hg) hmem'

/-! ### Helper lemmas: schedule loop -/

theorem schedLoop_nil (updateOk : String → Bool) (index : String → Option String) :
    schedLoop updateOk index [] = ([], 0, 0) := rfl

theorem schedLoop_cons_none {index : String → Option String} {s : RefreshSchedule}
    (updateOk : String → Bool) (rest : List RefreshSchedule)
    (h : index s.datasetName = none) :
    schedLoop updateOk index (s :: rest) =
      ((schedLoop updateOk index rest).1,
       (schedLoop updateOk index rest).2.1,
       (schedLoop updateOk index rest).2.2 + 1) := by
  simp [schedLoop, h]

theorem schedLoop_cons_some_pos {index : String → Option String} {s : RefreshSchedule}
    {updateOk : String → Bool} {id : String} (rest : List RefreshSchedule)
    (h : index s.datasetName = some id) (hu : updateOk id = true) :
    schedLoop updateOk index (s :: rest) =
      ((id, s.schedule) :: (schedLoop updateOk index rest).1,
       (schedLoop updateOk index rest).2.1 + 1,
       (schedLoop updateOk index rest).2.2) := by
  simp [schedLoop, h, hu]

theorem schedLoop_cons_some_neg {index : String → Option String} {s : RefreshSchedule}
    {updateOk : String → Bool} {id : String} (rest : List RefreshSchedule)
    (h : index s.datasetName = some id) (hu : updateOk id = false) :
    schedLoop updateOk index (s :: rest) =
      ((id, s.schedule) :: (schedLoop updateOk index rest).1,
       (schedLoop updateOk index rest).2.1,
       (schedLoop updateOk index rest).2.2 + 1) := by
  simp [schedLoop, h, hu]

theorem schedLoop_mem_trace (updateOk : String → Bool) (index : String → Option String) :
    ∀ (schedules : List RefreshSchedule),
      ∀ s ∈ schedules, ∀ id, index s.datasetName = some id →
        (id, s.schedule) ∈ (schedLoop updateOk index schedules).1 := by
  intro schedules
  induction schedules with
  | nil => intro s hs; cases hs
  | cons t rest ih =>
    intro s hs id hid
    rcases List.mem_cons.mp hs with rfl | hs
    · cases hu : updateOk id with
      | true =>
        rw [schedLoop_cons_some_pos rest hid hu]
        exact List.mem_cons_self _ _
      | false =>
        rw [schedLoop_cons_some_neg rest hid hu]
        exact List.mem_cons_self _ _
    · have hmem := ih s hs id hid
      cases ht : index t.datasetName with
      | none =>
        rw [schedLoop_cons_none updateOk rest ht]
        exact hmem
      | some tid =>
        cases hu : updateOk tid with
        | true =>
          rw [schedLoop_cons_some_pos rest ht hu]
          exact List.mem_cons_of_mem _ hmem
        | false =>
          rw [schedLoop_cons_some_neg rest ht hu]
          exact List.mem_cons_of_mem _ hmem

theorem schedLoop_filter_matched (updateOk : String → Bool) (index : String → Option String) :
    ∀ (schedules : List RefreshSchedule),
      (schedLoop updateOk index schedules).1 =
        (schedLoop updateOk index
          (schedules.filter (fun s => (index s.datasetName).isSome))).1 ∧
      (schedLoop updateOk index schedules).2.1 =
        (schedLoop updateOk index
          (schedules.filter (fun s => (index s.datasetName).isSome))).2.1 ∧
      (schedLoop updateOk index schedules).2.2 =
        (schedLoop updateOk index
          (schedules.filter (fun s => (index s.datasetName).isSome))).2.2 +
          (schedules.length -
            (schedules.filter (fun s => (index s.datasetName).isSome)).length) := by
  intro schedules
  induction schedules with
  | nil => simp [schedLoop_nil]
  | cons t rest ih =>
    obtain ⟨ih1, ih2, ih3⟩ := ih
    have hlen := List.length_filter_le (fun s => (index s.datasetName).isSome) rest
    cases ht : index t.datasetName with
    | none =>
      have hfilter : (t :: rest).filter (fun s => (index s.datasetName).isSome) =
          rest.filter (fun s => (index s.datasetName).isSome) := by
        simp [List.filter_cons, ht]
      rw [schedLoop_cons_none updateOk rest ht, hfilter]
      refine ⟨ih1, ih2, ?_⟩
      rw [ih3]
      simp only [List.length_cons]
      omega
    | some tid =>
      have hfilter : (t :: rest).filter (fun s => (index s.datasetName).isSome) =
          t :: rest.filter (fun s => (index s.datasetName).isSome) := by
        simp [List.filter_cons, ht]
      rw [hfilter]
      cases hu : updateOk tid with
      | true =>
        rw [schedLoop_cons_some_pos rest ht hu, schedLoop_cons_some_pos _ ht hu]
        refine ⟨by rw [ih1], by rw [ih2], ?_⟩
        rw [ih3]
        simp only [List.length_cons]
        omega
      | false =>
        rw [schedLoop_cons_some_neg rest ht hu, schedLoop_cons_some_neg _ ht hu]
        refine ⟨by rw [ih1], by rw [ih2], ?_⟩
        rw [ih3]
        simp only [List.length_cons]
        omega

/-! ### Helper lemmas: backup orchestrator -/

theorem backupRefreshSchedules_all_error (schedule : String → Except Unit ScheduleBlob) :
    ∀ (datasets : List Dataset),
      (∀ d ∈ datasets, schedule d.id = .error ()) →
      backupRefreshSchedules schedule datasets = [] := by
  intro datasets
  induction datasets with
  | nil => intro _; rfl
  | cons d ds ih =>
    intro h
    have hd := h d (List.mem_cons_self d ds)
    simp only [backupRefreshSchedules, hd]
    exact ih (fun d' hd' => h d' (List.mem_cons_of_mem d hd'))

theorem backupReportsPBIX_dirs (o : BackupOracle) (workspaceID ts : String)
    (reports : List Report) (st : Store) :
    (backupReportsPBIX o workspaceID ts reports st).dirs = st.dirs ∧
    (backupReportsPBIX o workspaceID ts reports st).completeFiles = st.completeFiles := by
  unfold backupReportsPBIX
  by_cases h1 : reports = []
  · simp [h1]
  · by_cases h2 : o.pbixMkdirOk = false
    · simp [h1, h2]
    · simp [h1, h2]

theorem backupWorkspace_ok_form (o : BackupOracle) (workspaceID ts name : String) (st : Store)
    (hm : o.mkdirOk = true) (hs : o.settings = .ok name) (hsave : o.saveOk = true) :
    (backupWorkspace o workspaceID ts st).1 =
      .ok { timestamp := ts, workspaceID := workspaceID, workspaceName := name,
            reports := o.reports.toOption.getD [],
            datasets := o.datasets.toOption.getD [],
            dataflows := o.dataflows.toOption.getD [],
            dashboards := o.dashboards.toOption.getD [],
            apps := (o.apps.toOption.getD []).filter (fun a => a.workspaceID = workspaceID),
            refreshSchedules :=
              backupRefreshSchedules o.schedule (o.datasets.toOption.getD []),
            workspaceSettings := { id := workspaceID, name := name } } := by
  unfold backupWorkspace
  rw [hm, hs]
  simp only [Bool.true_eq_false, if_false]
  rcases o with ⟨mk, se, re, da, dfl, dsh, ap, sch, pm, eo, sv⟩
  simp only at hsave ⊢
  rw [hsave]
  cases re <;> cases da <;> cases dfl <;> cases dsh <;> cases ap <;>
    simp [backupApps, Except.toOption]

theorem backupWorkspace_settings_error (o : BackupOracle) (workspaceID ts : String)
    (st : Store) (hs : o.settings = .error ()) :
    (backupWorkspace o workspaceID ts st).1 = .error () := by
  unfold backupWorkspace
  cases hm : o.mkdirOk with
  | false => simp
  | true => rw [hs]; simp

theorem backupReportsPBIX_dirs_eq (o : BackupOracle) (workspaceID ts : String)
    (reports : List Report) (st : Store) :
    (backupReportsPBIX o workspaceID ts reports st).dirs = st.dirs :=
  (backupReportsPBIX_dirs o workspaceID ts reports st).1

theorem backupReportsPBIX_completeFiles_eq (o : BackupOracle) (workspaceID ts : String)
    (reports : List Report) (st : Store) :
    (backupReportsPBIX o workspaceID ts reports st).completeFiles = st.completeFiles :=
  (backupReportsPBIX_dirs o workspaceID ts reports st).2

theorem backupWorkspace_save_error (o : BackupOracle) (workspaceID ts name : String)
    (st : Store) (hm : o.mkdirOk = true) (hs : o.settings = .ok name)
    (hsave : o.saveOk = false) :
    (backupWorkspace o workspaceID ts st).1 = .error () := by
  rcases o with ⟨mk, se, re, da, dfl, dsh, ap, sch, pm, eo, sv⟩
  simp only at hm hs hsave
  subst hm hs hsave
  simp [backupWorkspace]

theorem backupWorkspace_store_completeFiles (o : BackupOracle) (workspaceID ts : String)
    (st : Store) :
    ((backupWorkspace o workspaceID ts st).1 = .error () →
      (backupWorkspace o workspaceID ts st).2.completeFiles = st.completeFiles) ∧
    (o.mkdirOk = true → (workspaceID, ts) ∈ (backupWorkspace o workspaceID ts st).2.dirs) := by
  rcases o with ⟨mk, se, re, da, dfl, dsh, ap, sch, pm, eo, sv⟩
  cases mk with
  | false => simp [backupWorkspace]
  | true =>
    cases se with
    | error e =>
      cases e
      simp [backupWorkspace]
    | ok name =>
      cases sv with
      | false =>
        simp [backupWorkspace, backupReportsPBIX_dirs_eq, backupReportsPBIX_completeFiles_eq]
      | true =>
        simp [backupWorkspace, backupReportsPBIX_dirs_eq, backupReportsPBIX_completeFiles_eq]

theorem stripPbixExt_pbixFileName (s : String) : stripPbixExt (pbixFileName s) = s := by
  cases s with
  | mk data =>
    have hdata : (pbixFileName ⟨data⟩).data = data ++ ('.' :: 'p' :: 'b' :: 'i' :: 'x' :: []) := by
      simp [pbixFileName, String.data_append]
    simp only [stripPbixExt, hdata, List.length_append, List.length_cons, List.length_nil]
    have hlen : data.length + (0 + 1 + 1 + 1 + 1 + 1) - 5 = data.length := by omega
    rw [hlen]
    rw [List.take_left' rfl]

theorem sorted_strip_nodup (exportOk : Report → Bool) (reports : List Report) :
    ((((exportLoop exportOk reports ∅).1.sort (· ≤ ·)).map stripPbixExt).Nodup) := by
  apply List.Nodup.map_on
  · intro x hx y hy hxy
    have hx' := (Finset.mem_sort (α := String) (· ≤ ·)).mp hx
    have hy' := (Finset.mem_sort (α := String) (· ≤ ·)).mp hy
    rw [exportLoop_mem] at hx' hy'
    rcases hx' with hx' | ⟨rx, _, _, rfl⟩
    · cases hx'
    rcases hy' with hy' | ⟨ry, _, _, rfl⟩
    · cases hy'
    rw [stripPbixExt_pbixFileName, stripPbixExt_pbixFileName] at hxy
    rw [hxy]
  · exact Finset.sort_nodup (· ≤ ·) _

/-! ### Claim theorems -/

/-- C2: for every desired name and taken set, the Name Reconciler returns the
desired name unchanged when it is unused, and otherwise the suffixed form
`"{desired}_{n}"` for the smallest positive `n` whose form is unused; and the
scenario `["Sales", "Sales", "Sales"]` against an empty existing set yields
`["Sales", "Sales_1", "Sales_2"]` in order (run with every import
succeeding, so each reservation registers). -/
theorem claimC2_reconciler (taken : Finset String) (desired : String) :
    (desired ∉ taken → reconcileName taken desired = desired) ∧
    (desired ∈ taken →
      ∃ n, 0 < n ∧ reconcileName taken desired = candName desired n ∧
        candName desired n ∉ taken ∧
        ∀ m, 0 < m → m < n → candName desired m ∈ taken) ∧
    ((pbixImportLoop (fun _ => true) ["Sales.pbix", "Sales.pbix", "Sales.pbix"] ∅).1.map
        (fun a => a.finalName)) = ["Sales", "Sales_1", "Sales_2"] :=
  ⟨fun h => reconcileName_of_not_mem h, fun h => reconcileName_of_mem h, by decide⟩

/-- C2 witness: both branches of the reconciler at concrete inputs. -/
theorem claimC2_reconciler_witness :
    reconcileName (insert "Sales" ∅) "NewName" = "NewName" ∧
    (∃ n, 0 < n ∧ reconcileName (insert "Sales" ∅) "Sales" = candName "Sales" n ∧
      candName "Sales" n ∉ (insert "Sales" (∅ : Finset String)) ∧
      ∀ m, 0 < m → m < n → candName "Sales" m ∈ (insert "Sales" (∅ : Finset String))) :=
  ⟨(claimC2_reconciler (insert "Sales" ∅) "NewName").1 (by decide),
   (claimC2_reconciler (insert "Sales" ∅) "Sales").2.1 (by decide)⟩

/-- C1 counterexample: in the run with seed `{"Sales"}` and files
`["Sales.pbix", "Sales_1.pbix"]` whose first import fails, the reconciler
returns the final name `"Sales_1"` twice, because a failed import's final
name is not registered (the taken set after processing `"Sales.pbix"` with a
failed import is still exactly the seed). -/
theorem claimC1_counterexample :
    ((pbixImportLoop (fun _ => false) ["Sales.pbix", "Sales_1.pbix"]
        (insert "Sales" ∅)).1.map (fun a => a.finalName)) = ["Sales_1", "Sales_1"] ∧
    ¬ (((pbixImportLoop (fun _ => false) ["Sales.pbix", "Sales_1.pbix"]
        (insert "Sales" ∅)).1.map (fun a => a.finalName)).Nodup) ∧
    (pbixImportLoop (fun _ => false) ["Sales.pbix"] (insert "Sales" ∅)).2 =
      insert "Sales" ∅ :=
  ⟨by decide, by decide, by decide⟩

/-- C1 (amended): within one restore run, a desired name that collides with
neither the current taken set is returned unchanged; the taken set seen by
each candidate is the seed extended by exactly the final names of the
earlier candidates whose import succeeded (a failed import registers
nothing); the final names of successfully imported candidates are pairwise
distinct; and when every import succeeds no final name is returned twice. -/
theorem claimC1_run_uniqueness (importPbixOk : String → Bool) (files : List String)
    (seed : Finset String) :
    (∀ a ∈ (pbixImportLoop importPbixOk files seed).1,
      stripPbixExt a.file ∉ a.takenBefore → a.finalName = stripPbixExt a.file) ∧
    (∀ pre a post, (pbixImportLoop importPbixOk files seed).1 = pre ++ a :: post →
      a.takenBefore =
        pre.foldl (fun s b => if b.ok then insert b.finalName s else s) seed) ∧
    ((((pbixImportLoop importPbixOk files seed).1.filter (fun a => a.ok)).map
        (fun a => a.finalName)).Nodup) ∧
    (((pbixImportLoop (fun _ => true) files seed).1.map (fun a => a.finalName)).Nodup) := by
  refine ⟨?_, ?_, ?_, ?_⟩
  · intro a ha hfree
    rw [(pbixImportLoop_attempt_spec importPbixOk files seed a ha).1]
    exact reconcileName_of_not_mem hfree
  · intro pre a post h
    exact pbixImportLoop_takenBefore importPbixOk files seed pre a post h
  · exact (pbixImportLoop_success_spec importPbixOk files seed).1
  · exact pbixImportLoop_all_ok_nodup files seed

/-- C1 witness: the amended run theorem applied to a one-file run. -/
theorem claimC1_run_uniqueness_witness :
    (⟨"A.pbix", ∅, "A", false⟩ : ImportAttempt).finalName =
      stripPbixExt (⟨"A.pbix", ∅, "A", false⟩ : ImportAttempt).file ∧
    (⟨"A.pbix", ∅, "A", false⟩ : ImportAttempt).takenBefore =
      ([] : List ImportAttempt).foldl
        (fun s b => if b.ok then insert b.finalName s else s) ∅ :=
  ⟨(claimC1_run_uniqueness (fun _ => false) ["A.pbix"] ∅).1
      ⟨"A.pbix", ∅, "A", false⟩ (by decide) (by decide),
   (claimC1_run_uniqueness (fun _ => false) ["A.pbix"] ∅).2.1
      [] ⟨"A.pbix", ∅, "A", false⟩ [] (by decide)⟩

/-- C3: when the run directory is created, the settings fetch and the final
save succeed, a failure of any one of the reports / datasets / dataflows /
dashboards / refresh-schedules fetches still yields a successful backup
whose corresponding collection is empty; a workspace-settings fetch failure
makes the whole run fail with no snapshot. -/
theorem claimC3_backup_failure_policy (o : BackupOracle) (workspaceID ts name : String)
    (st : Store) :
    (o.mkdirOk = true → o.settings = .ok name → o.saveOk = true →
      ((o.reports = .error () →
        ∃ b, (backupWorkspace o workspaceID ts st).1 = .ok b ∧ b.reports = []) ∧
       (o.datasets = .error () →
        ∃ b, (backupWorkspace o workspaceID ts st).1 = .ok b ∧ b.datasets = []) ∧
       (o.dataflows = .error () →
        ∃ b, (backupWorkspace o workspaceID ts st).1 = .ok b ∧ b.dataflows = []) ∧
       (o.dashboards = .error () →
        ∃ b, (backupWorkspace o workspaceID ts st).1 = .ok b ∧ b.dashboards = []) ∧
       ((∀ d ∈ o.datasets.toOption.getD [], o.schedule d.id = .error ()) →
        ∃ b, (backupWorkspace o workspaceID ts st).1 = .ok b ∧ b.refreshSchedules = []))) ∧
    (o.settings = .error () → (backupWorkspace o workspaceID ts st).1 = .error ()) := by
  constructor
  · intro hm hs hsave
    rw [backupWorkspace_ok_form o workspaceID ts name st hm hs hsave]
    refine ⟨?_, ?_, ?_, ?_, ?_⟩
    · intro h
      exact ⟨_, rfl, by simp [h, Except.toOption]⟩
    · intro h
      exact ⟨_, rfl, by simp [h, Except.toOption]⟩
    · intro h
      exact ⟨_, rfl, by simp [h, Except.toOption]⟩
    · intro h
      exact ⟨_, rfl, by simp [h, Except.toOption]⟩
    · intro h
      exact ⟨_, rfl, by simpa using backupRefreshSchedules_all_error o.schedule _ h⟩
  · intro hs
    exact backupWorkspace_settings_error o workspaceID ts st hs

/-- C3 witness: a run with only the reports fetch failing succeeds with an
empty reports collection; a run with the settings fetch failing fails. -/
theorem claimC3_backup_failure_policy_witness :
    (∃ b, (backupWorkspace
        ⟨true, .ok "W", .error (), .ok [], .ok [], .ok [], .ok [],
          fun _ => .error (), true, fun _ => true, true⟩
        "w" "t" ⟨∅, ∅, ∅⟩).1 = .ok b ∧ b.reports = []) ∧
    (backupWorkspace
        ⟨true, .error (), .ok [], .ok [], .ok [], .ok [], .ok [],
          fun _ => .error (), true, fun _ => true, true⟩
        "w" "t" ⟨∅, ∅, ∅⟩).1 = .error () :=
  ⟨((claimC3_backup_failure_policy
      ⟨true, .ok "W", .error (), .ok [], .ok [], .ok [], .ok [],
        fun _ => .error (), true, fun _ => true, true⟩
      "w" "t" "W" ⟨∅, ∅, ∅⟩).1 rfl rfl rfl).1 rfl,
   (claimC3_backup_failure_policy
      ⟨true, .error (), .ok [], .ok [], .ok [], .ok [], .ok [],
        fun _ => .error (), true, fun _ => true, true⟩
      "w" "t" "W" ⟨∅, ∅, ∅⟩).2 rfl⟩

/-- C4 counterexample: the run directory is created before the settings
fetch, so a run whose settings fetch fails still leaves a new backup
location discoverable — starting from an empty store, the aborted run's
location is listed by `ListBackups` and returned by `GetLatestBackup`,
refuting "the backup store is left unchanged". -/
theorem claimC4_counterexample :
    (backupWorkspace
        ⟨true, .error (), .ok [], .ok [], .ok [], .ok [], .ok [],
          fun _ => .error (), true, fun _ => true, true⟩
        "w" "t" ⟨∅, ∅, ∅⟩).1 = .error () ∧
    "t" ∈ listBackups (backupWorkspace
        ⟨true, .error (), .ok [], .ok [], .ok [], .ok [], .ok [],
          fun _ => .error (), true, fun _ => true, true⟩
        "w" "t" ⟨∅, ∅, ∅⟩).2 "w" ∧
    getLatestBackup (backupWorkspace
        ⟨true, .error (), .ok [], .ok [], .ok [], .ok [], .ok [],
          fun _ => .error (), true, fun _ => true, true⟩
        "w" "t" ⟨∅, ∅, ∅⟩).2 "w" = .ok "t" ∧
    "t" ∉ listBackups ⟨∅, ∅, ∅⟩ "w" := by
  refine ⟨rfl, by decide, ?_, by decide⟩
  have h : listBackups (backupWorkspace
      ⟨true, .error (), .ok [], .ok [], .ok [], .ok [], .ok [],
        fun _ => .error (), true, fun _ => true, true⟩
      "w" "t" ⟨∅, ∅, ∅⟩).2 "w" = {"t"} := by decide
  unfold getLatestBackup
  rw [h, Finset.sort_singleton]
  rfl

/-- C4 (amended): a fatal abort writes no `complete_backup.json` for the
run, so the run is not loadable as a complete snapshot; but because the run
directory is created up front, once `os.MkdirAll` has succeeded the
location is discoverable via `ListBackups` even after a fatal abort. -/
theorem claimC4_no_complete_snapshot (o : BackupOracle) (workspaceID ts : String)
    (st : Store) (hfresh : (workspaceID, ts) ∉ st.completeFiles) :
    ((backupWorkspace o workspaceID ts st).1 = .error () →
      (workspaceID, ts) ∉ (backupWorkspace o workspaceID ts st).2.completeFiles ∧
      loadBackupAt (backupWorkspace o workspaceID ts st).2 workspaceID ts = .error ()) ∧
    (o.mkdirOk = true →
      ts ∈ listBackups (backupWorkspace o workspaceID ts st).2 workspaceID) := by
  constructor
  · intro herr
    have hcf := (backupWorkspace_store_completeFiles o workspaceID ts st).1 herr
    constructor
    · rw [hcf]
      exact hfresh
    · unfold loadBackupAt
      rw [hcf, if_neg hfresh]
  · intro hm
    have hd := (backupWorkspace_store_completeFiles o workspaceID ts st).2 hm
    unfold listBackups
    exact Finset.mem_image.mpr ⟨(workspaceID, ts), Finset.mem_filter.mpr ⟨hd, rfl⟩, rfl⟩

/-- C4 witness: the amended theorem at the settings-fetch-failure run. -/
theorem claimC4_no_complete_snapshot_witness :
    (("w", "t") ∉ (backupWorkspace
        ⟨true, .error (), .ok [], .ok [], .ok [], .ok [], .ok [],
          fun _ => .error (), true, fun _ => true, true⟩
        "w" "t" ⟨∅, ∅, ∅⟩).2.completeFiles ∧
      loadBackupAt (backupWorkspace
        ⟨true, .error (), .ok [], .ok [], .ok [], .ok [], .ok [],
          fun _ => .error (), true, fun _ => true, true⟩
        "w" "t" ⟨∅, ∅, ∅⟩).2 "w" "t" = .error ()) ∧
    "t" ∈ listBackups (backupWorkspace
        ⟨true, .error (), .ok [], .ok [], .ok [], .ok [], .ok [],
          fun _ => .error (), true, fun _ => true, true⟩
        "w" "t" ⟨∅, ∅, ∅⟩).2 "w" :=
  ⟨(claimC4_no_complete_snapshot
      ⟨true, .error (), .ok [], .ok [], .ok [], .ok [], .ok [],
        fun _ => .error (), true, fun _ => true, true⟩
      "w" "t" ⟨∅, ∅, ∅⟩ (by decide)).1 rfl,
   (claimC4_no_complete_snapshot
      ⟨true, .error (), .ok [], .ok [], .ok [], .ok [], .ok [],
        fun _ => .error (), true, fun _ => true, true⟩
      "w" "t" ⟨∅, ∅, ∅⟩ (by decide)).2 rfl⟩

/-- C9: an apps fetch failure is invisible at the top level — the run
behaves exactly as if the fetch had returned an empty list (`backupApps`
swallows the error), and any snapshot produced carries an empty apps
collection, with no error surfaced for the apps step. -/
theorem claimC9_apps_optional (o : BackupOracle) (workspaceID ts : String) (st : Store)
    (h : o.apps = .error ()) :
    backupWorkspace o workspaceID ts st =
      backupWorkspace { o with apps := .ok [] } workspaceID ts st ∧
    (∀ b st', backupWorkspace o workspaceID ts st = (.ok b, st') → b.apps = []) := by
  constructor
  · rcases o with ⟨mk, se, re, da, dfl, dsh, ap, sch, pm, eo, sv⟩
    simp only at h
    subst h
    rfl
  · intro b st' heq
    have h1 : (backupWorkspace o workspaceID ts st).1 = .ok b := by rw [heq]
    cases hm : o.mkdirOk with
    | false =>
      unfold backupWorkspace at h1
      rw [hm] at h1
      simp at h1
    | true =>
      cases hset : o.settings with
      | error e =>
        cases e
        rw [backupWorkspace_settings_error o workspaceID ts st hset] at h1
        cases h1
      | ok name =>
        cases hsv : o.saveOk with
        | false =>
          rw [backupWorkspace_save_error o workspaceID ts name st hm hset hsv] at h1
          cases h1
        | true =>
          rw [backupWorkspace_ok_form o workspaceID ts name st hm hset hsv] at h1
          injection h1 with h1
          rw [← h1]
          simp [h, Except.toOption]

/-- C9 witness: a run with a failed apps fetch equals the run with an empty
apps response. -/
theorem claimC9_apps_optional_witness :
    backupWorkspace
        ⟨true, .ok "W", .ok [], .ok [], .ok [], .ok [], .error (),
          fun _ => .error (), true, fun _ => true, true⟩
        "w" "t" ⟨∅, ∅, ∅⟩ =
      backupWorkspace
        ⟨true, .ok "W", .ok [], .ok [], .ok [], .ok [], .ok [],
          fun _ => .error (), true, fun _ => true, true⟩
        "w" "t" ⟨∅, ∅, ∅⟩ :=
  (claimC9_apps_optional
      ⟨true, .ok "W", .ok [], .ok [], .ok [], .ok [], .error (),
        fun _ => .error (), true, fun _ => true, true⟩
      "w" "t" ⟨∅, ∅, ∅⟩ rfl).1

/-- C5: a restore run succeeds exactly when loading the snapshot and the
PBIX import step both succeed; the refresh-schedule step cannot change the
returned result — replacing its remote-call outcomes wholesale leaves the
result untouched. -/
theorem claimC5_restore_result (o : RestoreOracle) :
    ((restoreWorkspace o).result.isOk =
      (o.load.isOk && (restoreReportsPBIX o).1.isOk)) ∧
    (∀ (u : String → Bool) (g : Except Unit (List (String × String))),
      (restoreWorkspace { o with updateOk := u, datasetsSched := g }).result =
        (restoreWorkspace o).result) := by
  constructor
  · unfold restoreWorkspace
    cases hl : o.load with
    | error e => rfl
    | ok backup =>
      rcases hr : restoreReportsPBIX o with ⟨res, attempts⟩
      cases res with
      | error e => rfl
      | ok u => rfl
  · intro u g
    have hrr : restoreReportsPBIX { o with updateOk := u, datasetsSched := g } =
        restoreReportsPBIX o := rfl
    unfold restoreWorkspace
    rw [hrr]
    cases hl : o.load with
    | error e => rfl
    | ok backup =>
      rcases hr : restoreReportsPBIX o with ⟨res, attempts⟩
      cases res with
      | error e => rfl
      | ok v => rfl

/-- C6: with the target workspace's dataset listing available, schedule
remapping never returns an error; every schedule whose captured name is in
the name→id index has its blob pushed to that id (an update call is in the
trace); and the unmatched schedules only add to the failure counter — the
trace and restored counter equal those of the run over the matched
schedules alone, so a missing name affects no sibling schedule. -/
theorem claimC6_schedule_remap (o : RestoreOracle) (schedules : List RefreshSchedule)
    (resp : List (String × String)) (h : o.datasetsSched = .ok resp) :
    (restoreRefreshSchedules o schedules).1 = .ok () ∧
    (∀ s ∈ schedules, ∀ id, buildIndex resp s.datasetName = some id →
      (id, s.schedule) ∈ (restoreRefreshSchedules o schedules).2.1) ∧
    ((restoreRefreshSchedules o schedules).2.1 =
      (schedLoop o.updateOk (buildIndex resp)
        (schedules.filter (fun s => (buildIndex resp s.datasetName).isSome))).1) ∧
    ((restoreRefreshSchedules o schedules).2.2.1 =
      (schedLoop o.updateOk (buildIndex resp)
        (schedules.filter (fun s => (buildIndex resp s.datasetName).isSome))).2.1) ∧
    ((restoreRefreshSchedules o schedules).2.2.2 =
      (schedLoop o.updateOk (buildIndex resp)
        (schedules.filter (fun s => (buildIndex resp s.datasetName).isSome))).2.2 +
        (schedules.length -
          (schedules.filter (fun s => (buildIndex resp s.datasetName).isSome)).length)) := by
  by_cases hnil : schedules = []
  · subst hnil
    simp [restoreRefreshSchedules, schedLoop_nil]
  · unfold restoreRefreshSchedules
    rw [if_neg hnil, h]
    obtain ⟨hf1, hf2, hf3⟩ := schedLoop_filter_matched o.updateOk (buildIndex resp) schedules
    exact ⟨rfl,
      fun s hs id hid => schedLoop_mem_trace o.updateOk (buildIndex resp) schedules s hs id hid,
      hf1, hf2, hf3⟩

/-- C6 witness: one matched and one unmatched schedule; the matched one's
blob is pushed to the new dataset id. -/
theorem claimC6_schedule_remap_witness :
    ("id1", "blob") ∈ (restoreRefreshSchedules
      ⟨.error (), false, .ok [], .ok [], fun _ => true, .ok [("A", "id1")], fun _ => true⟩
      [⟨"old1", "A", "blob"⟩, ⟨"old2", "B", "blob2"⟩]).2.1 :=
  (claimC6_schedule_remap
      ⟨.error (), false, .ok [], .ok [], fun _ => true, .ok [("A", "id1")], fun _ => true⟩
      [⟨"old1", "A", "blob"⟩, ⟨"old2", "B", "blob2"⟩] [("A", "id1")] rfl).2.1
    ⟨"old1", "A", "blob"⟩ (by decide) "id1" (by decide)

/-- C10: when the loaded snapshot has no `pbix` directory, or the glob
finds no `.pbix` files, the import step attempts nothing and the restore
still reports success. -/
theorem claimC10_empty_import (o : RestoreOracle) (b : CompleteBackup)
    (hload : o.load = .ok b)
    (h : o.pbixDirExists = false ∨ o.glob = .ok []) :
    (restoreWorkspace o).imports = [] ∧ (restoreWorkspace o).result = .ok () := by
  have hrr : restoreReportsPBIX o = (.ok (), []) := by
    rcases h with h | h
    · simp [restoreReportsPBIX, h]
    · unfold restoreReportsPBIX
      cases hp : o.pbixDirExists with
      | false => simp
      | true => rw [h]; simp
  unfold restoreWorkspace
  rw [hload, hrr]
  exact ⟨rfl, rfl⟩

/-- C10 witness: a snapshot without a `pbix` directory restores with zero
imports and overall success. -/
theorem claimC10_empty_import_witness :
    (restoreWorkspace
      ⟨.ok ⟨"t", "w", "n", [], [], [], [], [], [], ⟨"w", "n"⟩⟩, false, .ok [],
        .ok [], fun _ => true, .ok [], fun _ => true⟩).imports = [] ∧
    (restoreWorkspace
      ⟨.ok ⟨"t", "w", "n", [], [], [], [], [], [], ⟨"w", "n"⟩⟩, false, .ok [],
        .ok [], fun _ => true, .ok [], fun _ => true⟩).result = .ok () :=
  claimC10_empty_import
    ⟨.ok ⟨"t", "w", "n", [], [], [], [], [], [], ⟨"w", "n"⟩⟩, false, .ok [],
      .ok [], fun _ => true, .ok [], fun _ => true⟩
    ⟨"t", "w", "n", [], [], [], [], [], [], ⟨"w", "n"⟩⟩ rfl (Or.inl rfl)

/-- C7 counterexample: two reports that share the display name "Sales" both
export successfully (N = 2 successful exports), but `os.Create` overwrites
the first artifact, so the snapshot holds one `.pbix` file and the restore
attempts exactly one import, not two. -/
theorem claimC7_counterexample :
    (exportLoop (fun _ => true)
        [⟨"r1", "Sales", "", "", ""⟩, ⟨"r2", "Sales", "", "", ""⟩] ∅).2.1 = 2 ∧
    (exportLoop (fun _ => true)
        [⟨"r1", "Sales", "", "", ""⟩, ⟨"r2", "Sales", "", "", ""⟩] ∅).1 =
      {"Sales.pbix"} ∧
    (pbixImportLoop (fun _ => true)
        ((exportLoop (fun _ => true)
            [⟨"r1", "Sales", "", "", ""⟩, ⟨"r2", "Sales", "", "", ""⟩] ∅).1.sort (· ≤ ·))
        ∅).1.length = 1 := by
  refine ⟨by decide, by decide, ?_⟩
  have h : (exportLoop (fun _ => true)
      [⟨"r1", "Sales", "", "", ""⟩, ⟨"r2", "Sales", "", "", ""⟩] ∅).1 =
      {"Sales.pbix"} := by decide
  rw [h, Finset.sort_singleton]
  decide

/-- C7 (amended): a backup makes one export attempt per report and counts
the successes, but the snapshot's `pbix/` directory holds one artifact per
*distinct* successful report name (duplicates overwrite), and the restore
attempts exactly one import per artifact file present; restoring into an
empty target workspace with all imports succeeding yields one dataset per
artifact file, each dataset named by the filename with `.pbix` stripped,
unchanged — filenames in one directory are distinct, so no `_n` suffix is
ever needed against an empty target. -/
theorem claimC7_roundtrip (exportOk : Report → Bool) (importPbixOk : String → Bool)
    (reports : List Report) :
    ((exportLoop exportOk reports ∅).2.1 = (reports.filter exportOk).length) ∧
    ((exportLoop exportOk reports ∅).1 =
      ((reports.filter exportOk).map (fun r => pbixFileName r.name)).toFinset) ∧
    ((pbixImportLoop importPbixOk
        ((exportLoop exportOk reports ∅).1.sort (· ≤ ·)) ∅).1.length =
      (exportLoop exportOk reports ∅).1.card) ∧
    (((pbixImportLoop (fun _ => true)
          ((exportLoop exportOk reports ∅).1.sort (· ≤ ·)) ∅).1.map
        (fun a => a.finalName)) =
      ((exportLoop exportOk reports ∅).1.sort (· ≤ ·)).map stripPbixExt) ∧
    ((((exportLoop exportOk reports ∅).1.sort (· ≤ ·)).map stripPbixExt).Nodup) := by
  refine ⟨exportLoop_succeeded exportOk reports ∅, ?_, ?_, ?_, sorted_strip_nodup exportOk reports⟩
  · rw [exportLoop_fst_eq]
    simp
  · rw [pbixImportLoop_length, Finset.length_sort]
  · apply pbixImportLoop_unchanged
    · exact sorted_strip_nodup exportOk reports
    · intro f _
      exact Finset.not_mem_empty _

/-- C8 counterexample: the artifact filename is the report display name
used verbatim — for a report named `"a/b"` the filename component
`"a/b.pbix"` contains a path separator, so it is not file-system-safe and
no sanitization happened, refuting "sanitized to be file-system-safe
before use". -/
theorem claimC8_counterexample :
    pbixFileName "a/b" = "a/b.pbix" ∧
    ¬ fileSystemSafe (pbixFileName "a/b") ∧
    pbixFilePath "run" "a/b" = "run/pbix/a/b.pbix" :=
  ⟨rfl, by decide, by decide⟩

/-- C8 (amended): every successful export writes exactly the file
`"{name}.pbix"` with the report's display name verbatim — the files present
after the export loop are the initial ones plus `pbixFileName r.name` for
each successfully exported report, nothing is sanitized, and stripping the
extension returns the raw name. -/
theorem claimC8_artifact_naming (exportOk : Report → Bool) (rs : List Report)
    (fs : Finset String) (x : String) (name : String) :
    (x ∈ (exportLoop exportOk rs fs).1 ↔
      x ∈ fs ∨ ∃ r, r ∈ rs ∧ exportOk r = true ∧ x = pbixFileName r.name) ∧
    stripPbixExt (pbixFileName name) = name :=
  ⟨exportLoop_mem exportOk rs fs x, stripPbixExt_pbixFileName name⟩
